import Mathlib

/-!
Verification development for the Trillium Model knowledge-base viewer.

The program consists of three source files: `App.tsx` (sectionizer,
view state machine, per-feature session stores), `services/geminiService.ts`
(language-model gateway: summarize, answer, quiz), and `types.ts` (data
shapes).  This file shallowly embeds the relevant parts:

* strings are embedded as `List Char` (`Str`); the documents involved are
  ASCII, so JavaScript UTF-16 code units coincide with `Char`s;
* JavaScript string primitives used by the source (`split('\n')`, `trim`,
  `startsWith`, `indexOf`, `substring`, `replace`) are given JS-faithful
  definitions;
* the React components' state and handlers are embedded as explicit state
  types with step functions; asynchronous gateway calls are modelled as
  labelled transitions that separate issuing a request from its resolution,
  and the number of gateway calls emitted by a step is an observable.
-/

/-- Characters are the unit of JS strings here; documents are ASCII. -/
abbrev Str := List Char

/-- Whitespace recognised by `String.prototype.trim` (ASCII part). -/
def isWS (c : Char) : Bool :=
  c == ' ' || c == '\t' || c == '\n' || c == '\r' || c == '\x0b' || c == '\x0c'

/-- Left trim: drop leading whitespace. -/
def ltrim (s : Str) : Str := s.dropWhile isWS

/-- Right trim: drop trailing whitespace. -/
def rtrim (s : Str) : Str := (s.reverse.dropWhile isWS).reverse

/-- JS `s.trim()`. -/
def trimStr (s : Str) : Str := rtrim (ltrim s)

/-- JS `s.split('\n')`: split into the list of lines; `"".split` gives
`[""]`, and a trailing newline yields a trailing empty piece. -/
def splitNL : Str → List Str
  | [] => [[]]
  | c :: t =>
    if c = '\n' then [] :: splitNL t
    else
      match splitNL t with
      | [] => [[c]]
      | h :: r => (c :: h) :: r

/-- Join lines back, appending a newline after each line (this is the shape
the sectionizer's accumulator `content += line + '\n'` produces). -/
def joinNL (ls : List Str) : Str := (ls.map (· ++ ['\n'])).flatten

/-- First index at which `pat` occurs in the second argument, if any
(the search of JS `String.prototype.indexOf`). -/
def findSub (pat : Str) : Str → Option Nat
  | [] => if pat.isPrefixOf ([] : Str) then some 0 else none
  | c :: t =>
    if pat.isPrefixOf (c :: t) then some 0
    else (findSub pat t).map (· + 1)

/-- JS `s.indexOf(pat)`: position of the first occurrence, `-1` if absent. -/
def jsIndexOf (s pat : Str) : Int :=
  match findSub pat s with
  | some n => (n : Int)
  | none => -1

/-- JS `s.substring(a, b)`: both indices are clamped into `[0, length]` and
swapped when out of order. -/
def jsSubstring (s : Str) (a b : Int) : Str :=
  let n : Int := (s.length : Int)
  let a2 : Nat := (min (max a 0) n).toNat
  let b2 : Nat := (min (max b 0) n).toNat
  (s.drop (min a2 b2)).take (max a2 b2 - min a2 b2)

/-- JS `s.replace(pat, repl)` with a string pattern: replace the first
occurrence only; return `s` unchanged when `pat` does not occur. -/
def replaceFirst (s pat repl : Str) : Str :=
  match findSub pat s with
  | none => s
  | some i => s.take i ++ repl ++ s.drop (i + pat.length)

/-- The heading test of the sectionizer: `line.trim().startsWith('##')`. -/
def h2 : Str := ['#', '#']

/-- The heading marker stripped from titles: `'## '`. -/
def h2sp : Str := ['#', '#', ' ']

/-- JS `s.replace(/^## /, '')`: strip one leading `'## '` if present. -/
def stripH2 (s : Str) : Str := if h2sp.isPrefixOf s then s.drop 3 else s

/-- A document section, as produced by `parseSections` in `App.tsx`. -/
structure Sec where
  title : Str
  content : Str
deriving DecidableEq, Repr

/-- The title of the seeded first section and the title-equality guard in
the scan loop. -/
def abstractTitle : Str := "Abstract".data

/-- Emission performed when a heading line closes the current section:
pushed only if the trimmed content is non-empty and the title is not
`'Abstract'` (the literal condition in the loop body). -/
def emitCur (cur : Sec) : List Sec :=
  if trimStr cur.content ≠ [] ∧ cur.title ≠ abstractTitle then
    [⟨cur.title, trimStr cur.content⟩]
  else []

/-- The per-line scan loop of `parseSections` (`App.tsx` lines 70–86),
including the final flush, which pushes the last open section when its
trimmed content is non-empty with no title check. -/
def scanLines : List Str → Sec → List Sec
  | [], cur =>
    if trimStr cur.content ≠ [] then [⟨cur.title, trimStr cur.content⟩] else []
  | l :: ls, cur =>
    if h2.isPrefixOf (trimStr l) then
      emitCur cur ++ scanLines ls ⟨stripH2 (trimStr l), []⟩
    else
      scanLines ls ⟨cur.title, cur.content ++ l ++ ['\n']⟩

/-- The literal start marker of the abstract extraction. -/
def abstractMarker : Str := "## Abstract".data

/-- The literal end marker of the abstract extraction (hard-coded to the
first heading of the fixed report). -/
def coreMarker : Str := "## I. The Core Framework".data

/-- `parseSections` from `App.tsx` (lines 62–89): seed the output with an
`'Abstract'` section whose content is the substring between the two literal
markers (with the start marker removed and the result trimmed), then run the
per-line scan over the split document. -/
def parseSections (text : Str) : List Sec :=
  let abstractContent :=
    jsSubstring text (jsIndexOf text abstractMarker) (jsIndexOf text coreMarker)
  ⟨abstractTitle, trimStr (replaceFirst abstractContent abstractMarker [])⟩
    :: scanLines (splitNL text) ⟨abstractTitle, []⟩

/-- Number of second-level headings of a document: lines whose trimmed text
starts with the `'## '` marker. -/
def secondLevelHeadingCount (text : Str) : Nat :=
  ((splitNL text).filter (fun l => h2sp.isPrefixOf (trimStr l))).length

/-- The lines a titled section contributes to the document: its heading line
followed by its content lines. -/
def secBlock (p : Str × Str) : List Str := (h2sp ++ p.1) :: splitNL p.2

/-- The lines contributed by a list of titled sections. -/
def secLines (secs : List (Str × Str)) : List Str := (secs.map secBlock).flatten

/-- Well-formedness of a (title, content) pair used to build a test document:
the title is non-empty, already trimmed, newline-free and distinct from
`'Abstract'`; the content has non-empty trimmed text and none of its lines
looks like a heading. -/
def goodSec (p : Str × Str) : Prop :=
  p.1 ≠ [] ∧ trimStr p.1 = p.1 ∧ '\n' ∉ p.1 ∧ p.1 ≠ abstractTitle ∧
    trimStr p.2 ≠ [] ∧ ∀ l ∈ splitNL p.2, h2.isPrefixOf (trimStr l) = false

instance (p : Str × Str) : Decidable (goodSec p) := by
  unfold goodSec
  infer_instance

/-- The document text contributed by a list of titled sections: for each, a
newline, its heading line, a newline, and its content. -/
def secsText (secs : List (Str × Str)) : Str :=
  (secs.map (fun p => '\n' :: ((h2sp ++ p.1) ++ '\n' :: p.2))).flatten

/-- A document made of an `'## Abstract'` heading, abstract text, and a list
of further second-level sections. -/
def mkDoc (abstract : Str) (secs : List (Str × Str)) : Str :=
  abstractMarker ++ '\n' :: (abstract ++ secsText secs)

/-!
Association-list maps model JavaScript objects used as records
(`summaries`, `loading`, `userAnswers`): keys are unique, insertion
either overwrites in place or appends.
-/

/-- Lookup in an association list (JS `obj[k]`, `none` for `undefined`). -/
def getA {K V : Type} [DecidableEq K] (m : List (K × V)) (k : K) : Option V :=
  (m.find? (fun p => p.1 = k)).map (·.2)

/-- Insert/overwrite in an association list (JS `{ ...obj, [k]: v }`). -/
def setA {K V : Type} [DecidableEq K] (m : List (K × V)) (k : K) (v : V) :
    List (K × V) :=
  match m with
  | [] => [(k, v)]
  | p :: t => if p.1 = k then (k, v) :: t else p :: setA t k v

/-!
Language-model gateway (`services/geminiService.ts`).  The remote
completion capability is an external collaborator; it is modelled as a
function from the prompt to either a response text or a failure
(`Except String String`).  JavaScript exceptions are modelled by the
`Except String` result channel of each operation: `.error` is a raised
error, `.ok` a normal return.  The API credential is `Option String`;
JS truthiness makes the empty string count as unconfigured.
-/

/-- Whether the client `ai` is non-null: `API_KEY` present and truthy. -/
def apiConfigured (key : Option String) : Bool :=
  match key with
  | some k => k ≠ ""
  | none => false

/-- The configuration error message of `checkApiKey`. -/
def apiKeyMsg : String :=
  "API Key is not configured. Please set up the process.env.API_KEY environment variable."

/-- `checkApiKey`: the error message if the credential is missing, else none. -/
def checkApiKey (key : Option String) : Option String :=
  if apiConfigured key then none else some apiKeyMsg

/-- Fallback string of `generateSummary` on remote failure. -/
def summaryFallback : String := "Failed to generate summary."

/-- Fallback string of `answerQuestion` on remote failure. -/
def answerFallback : String := "Failed to get an answer. Please try again."

/-- Error message raised by `generateQuiz` on remote or parse failure. -/
def quizFailMsg : String := "Failed to generate quiz. Please try again."

/-- The summarize prompt (`geminiService.ts` lines 32–35). -/
def summaryPrompt (sectionTitle sectionContent : String) : String :=
  "Summarize the following section from a theoretical physics report in a concise paragraph. Do not use markdown headers or titles. Do not introduce the summary with phrases like \"This section is about\" or \"In this section...\". Just provide the summary.\n\nSection Title: "
    ++ sectionTitle ++ "\nSection Content: " ++ sectionContent

/-- The question-answering prompt (`geminiService.ts` lines 53–58). -/
def answerPrompt (reportText question : String) : String :=
  "Based on the following document, answer the user\x27s question. If the information is not in the document, state that you cannot answer.\n\nDocument:\n"
    ++ reportText ++ "\n\nQuestion: " ++ question

/-- The quiz prompt (`geminiService.ts` lines 76–79). -/
def quizPrompt (reportText : String) : String :=
  "Create a 5-question multiple-choice quiz based on the following document. The response must be a valid JSON object with a single \x27quiz\x27 key. The value of \x27quiz\x27 should be an array of objects. Each object in the array must have the following keys: \x27question\x27 (string), \x27options\x27 (array of strings, exactly 4 options), and \x27correctAnswer\x27 (string, the correct option). Do not include any other text in the response, just the JSON.\n\nDocument:\n"
    ++ reportText

/-- `generateSummary` (`geminiService.ts` lines 28–47): missing credential
returns (does not throw) the configuration message; a remote failure is
caught and replaced by the fallback string. -/
def generateSummary (key : Option String) (remote : String → Except String String)
    (sectionTitle sectionContent : String) : Except String String :=
  match checkApiKey key with
  | some msg => .ok msg
  | none =>
    match remote (summaryPrompt sectionTitle sectionContent) with
    | .ok text => .ok text
    | .error _ => .ok summaryFallback

/-- `answerQuestion` (`geminiService.ts` lines 49–70): same structure as
`generateSummary` with its own prompt and fallback string. -/
def answerQuestion (key : Option String) (remote : String → Except String String)
    (reportText question : String) : Except String String :=
  match checkApiKey key with
  | some msg => .ok msg
  | none =>
    match remote (answerPrompt reportText question) with
    | .ok text => .ok text
    | .error _ => .ok answerFallback

/-!
JSON values and a model of `JSON.parse`.  `generateQuiz` feeds the trimmed
response text to `JSON.parse` and returns the parsed value without shape
validation; the TypeScript return type is a cast, not a runtime check, so
the embedding returns a `Json` value.  Numbers are kept as raw lexemes
(no claim inspects numeric values).  `generateQuiz` is parameterised over
the parse function so that independence from it can be stated; the
concrete model below follows the JSON grammar (with last-field-wins
duplicate handling not modelled; no evaluated input has duplicate keys).
-/

/-- JSON values. -/
inductive Json where
  | null
  | bool (b : Bool)
  | num (raw : String)
  | str (s : String)
  | arr (xs : List Json)
  | obj (fields : List (String × Json))
deriving Repr

/-- JSON insignificant whitespace. -/
def isJsonWS (c : Char) : Bool := c == ' ' || c == '\t' || c == '\n' || c == '\r'

/-- Skip insignificant whitespace. -/
def skipWS (s : Str) : Str := s.dropWhile isJsonWS

/-- Value of a hex digit. -/
def hexVal (c : Char) : Option Nat :=
  if c.isDigit then some (c.toNat - 48)
  else if 'a' ≤ c ∧ c ≤ 'f' then some (c.toNat - 87)
  else if 'A' ≤ c ∧ c ≤ 'F' then some (c.toNat - 55)
  else none

/-- Parse a JSON string body, positioned after the opening quote; returns
the decoded characters and the remainder after the closing quote. -/
def pStrBody (fuel : Nat) (s : Str) : Option (Str × Str) :=
  match fuel with
  | 0 => none
  | fuel + 1 =>
    match s with
    | [] => none
    | c :: rest =>
      if c = '"' then some ([], rest)
      else if c = '\\' then
        match rest with
        | [] => none
        | e :: rest2 =>
          let dec : Option (Char × Str) :=
            if e = '"' then some ('"', rest2)
            else if e = '\\' then some ('\\', rest2)
            else if e = '/' then some ('/', rest2)
            else if e = 'b' then some ('\x08', rest2)
            else if e = 'f' then some ('\x0c', rest2)
            else if e = 'n' then some ('\n', rest2)
            else if e = 'r' then some ('\r', rest2)
            else if e = 't' then some ('\t', rest2)
            else if e = 'u' then
              match rest2 with
              | a :: b :: c2 :: d :: rest3 =>
                match hexVal a, hexVal b, hexVal c2, hexVal d with
                | some ha, some hb, some hc, some hd =>
                  let n := ((ha * 16 + hb) * 16 + hc) * 16 + hd
                  if n < 0xd800 ∨ (0xdfff < n ∧ n < 0x110000) then
                    some (Char.ofNat n, rest3)
                  else none
                | _, _, _, _ => none
              | _ => none
            else none
          match dec with
          | none => none
          | some (ch, rest3) => (pStrBody fuel rest3).map (fun pr => (ch :: pr.1, pr.2))
      else if c.toNat < 0x20 then none
      else (pStrBody fuel rest).map (fun pr => (c :: pr.1, pr.2))

/-- Parse the integer part of a JSON number. -/
def pIntPart (s : Str) : Option (Str × Str) :=
  match s with
  | [] => none
  | '0' :: t => some (['0'], t)
  | c :: t =>
    if c.isDigit then some (c :: t.takeWhile Char.isDigit, t.dropWhile Char.isDigit)
    else none

/-- Parse an optional fraction part of a JSON number. -/
def pFrac (s : Str) : Option (Str × Str) :=
  match s with
  | '.' :: t =>
    let ds := t.takeWhile Char.isDigit
    if ds = [] then none else some ('.' :: ds, t.dropWhile Char.isDigit)
  | _ => some ([], s)

/-- Parse an optional exponent part of a JSON number. -/
def pExp (s : Str) : Option (Str × Str) :=
  match s with
  | [] => some ([], [])
  | c :: t =>
    if c = 'e' ∨ c = 'E' then
      let sg : Str × Str :=
        match t with
        | '+' :: u => (['+'], u)
        | '-' :: u => (['-'], u)
        | _ => ([], t)
      let ds := sg.2.takeWhile Char.isDigit
      if ds = [] then none
      else some (c :: (sg.1 ++ ds), sg.2.dropWhile Char.isDigit)
    else some ([], c :: t)

/-- Parse a JSON number lexeme. -/
def pNum (s : Str) : Option (Str × Str) :=
  let st : Str × Str :=
    match s with
    | '-' :: t => (['-'], t)
    | _ => ([], s)
  match pIntPart st.2 with
  | none => none
  | some (ip, r1) =>
    match pFrac r1 with
    | none => none
    | some (fp, r2) =>
      match pExp r2 with
      | none => none
      | some (ep, r3) => some (st.1 ++ ip ++ fp ++ ep, r3)

mutual

/-- Parse one JSON value (leading whitespace allowed). -/
def pVal (fuel : Nat) (s : Str) : Option (Json × Str) :=
  match fuel with
  | 0 => none
  | fuel + 1 =>
    match skipWS s with
    | [] => none
    | c :: rest =>
      if c = '"' then
        (pStrBody (rest.length + 1) rest).map (fun pr => (Json.str (String.mk pr.1), pr.2))
      else if c = '\x7b' then pObjBody fuel rest
      else if c = '[' then pArrBody fuel rest
      else if c = 't' then
        match rest with
        | 'r' :: 'u' :: 'e' :: r => some (Json.bool true, r)
        | _ => none
      else if c = 'f' then
        match rest with
        | 'a' :: 'l' :: 's' :: 'e' :: r => some (Json.bool false, r)
        | _ => none
      else if c = 'n' then
        match rest with
        | 'u' :: 'l' :: 'l' :: r => some (Json.null, r)
        | _ => none
      else
        (pNum (c :: rest)).map (fun pr => (Json.num (String.mk pr.1), pr.2))

/-- Parse an array body, positioned after the opening bracket. -/
def pArrBody (fuel : Nat) (s : Str) : Option (Json × Str) :=
  match fuel with
  | 0 => none
  | fuel + 1 =>
    match skipWS s with
    | ']' :: r => some (Json.arr [], r)
    | _ => pArrItems fuel s []

/-- Parse the comma-separated items of a non-empty array. -/
def pArrItems (fuel : Nat) (s : Str) (acc : List Json) : Option (Json × Str) :=
  match fuel with
  | 0 => none
  | fuel + 1 =>
    match pVal fuel s with
    | none => none
    | some (j, r) =>
      match skipWS r with
      | ',' :: r2 => pArrItems fuel r2 (acc ++ [j])
      | ']' :: r2 => some (Json.arr (acc ++ [j]), r2)
      | _ => none

/-- Parse an object body, positioned after the opening brace. -/
def pObjBody (fuel : Nat) (s : Str) : Option (Json × Str) :=
  match fuel with
  | 0 => none
  | fuel + 1 =>
    match skipWS s with
    | '\x7d' :: r => some (Json.obj [], r)
    | _ => pObjItems fuel s []

/-- Parse the comma-separated fields of a non-empty object. -/
def pObjItems (fuel : Nat) (s : Str) (acc : List (String × Json)) :
    Option (Json × Str) :=
  match fuel with
  | 0 => none
  | fuel + 1 =>
    match skipWS s with
    | '"' :: r =>
      match pStrBody (r.length + 1) r with
      | none => none
      | some (k, r2) =>
        match skipWS r2 with
        | ':' :: r3 =>
          match pVal fuel r3 with
          | none => none
          | some (j, r4) =>
            match skipWS r4 with
            | ',' :: r5 => pObjItems fuel r5 (acc ++ [(String.mk k, j)])
            | '\x7d' :: r5 => some (Json.obj (acc ++ [(String.mk k, j)]), r5)
            | _ => none
        | _ => none
    | _ => none

end

/-- Model of `JSON.parse`: parse one value, reject trailing garbage. -/
def parseJsonText (s : String) : Option Json :=
  match pVal (s.length * 2 + 8) s.data with
  | some (j, rest) => if skipWS rest = [] then some j else none
  | none => none

/-- The format pre-check of `generateQuiz`:
`jsonText.startsWith('\x7b') || jsonText.startsWith('[')`. -/
def goodJsonStart (t : Str) : Bool :=
  match t with
  | c :: _ => (c == '\x7b') || (c == '[')
  | [] => false

/-- `generateQuiz` (`geminiService.ts` lines 72–120): a missing credential
raises the configuration message before the `try` block; inside it, a remote
failure, a trimmed response that does not start with a brace or bracket, or
a JSON parse failure are all caught and re-raised as the generic quiz
failure.  On success the parsed JSON is returned without shape validation. -/
def generateQuiz (key : Option String) (remote : String → Except String String)
    (jsonParse : String → Option Json) (reportText : String) :
    Except String Json :=
  match checkApiKey key with
  | some msg => .error msg
  | none =>
    match remote (quizPrompt reportText) with
    | .error _ => .error quizFailMsg
    | .ok text =>
      let jsonText := String.mk (trimStr text.data)
      if goodJsonStart jsonText.data = false then .error quizFailMsg
      else
        match jsonParse jsonText with
        | none => .error quizFailMsg
        | some j => .ok j

/-- The `quiz` array of a parsed quiz payload, when shaped as expected. -/
def quizField (j : Json) : Option (List Json) :=
  match j with
  | .obj fields =>
    match getA fields "quiz" with
    | some (Json.arr xs) => some xs
    | _ => none
  | _ => none

/-- Shape of one well-formed quiz question as JSON: exactly 4 options and a
`correctAnswer` equal to one of them. -/
def questionOk (j : Json) : Prop :=
  ∃ fields opts ca,
    j = Json.obj fields ∧
    getA fields "options" = some (Json.arr opts) ∧ opts.length = 4 ∧
    getA fields "correctAnswer" = some (Json.str ca) ∧ Json.str ca ∈ opts

/-- Shape of a well-formed quiz payload: exactly 5 well-formed questions. -/
def quizOk (j : Json) : Prop :=
  ∃ xs, quizField j = some xs ∧ xs.length = 5 ∧ ∀ q ∈ xs, questionOk q

/-!
View state machine (`App.tsx`, `App` component).  The `'home'` view renders
the full report; the spec calls it `Report`.  The search input handler sets
the term and forces the view back to `'home'` when elsewhere; navigation
buttons set only the view.
-/

/-- The four views of the app. -/
inductive View where
  | home | summary | qna | quiz
deriving DecidableEq, Repr

/-- View state: active view plus the search term. -/
structure AppState where
  view : View
  searchTerm : String
deriving DecidableEq, Repr

/-- User events handled by the `App` component header. -/
inductive AppAction where
  | navigate (v : View)
  | editSearch (t : String)

/-- The header handlers (`App.tsx` lines 425–467): the search input's
`onChange` stores the term and forces `'home'` when not already there;
each nav button only sets the view. -/
def appStep (s : AppState) : AppAction → AppState
  | .navigate v => { s with view := v }
  | .editSearch t => { view := View.home, searchTerm := t }

/-!
Quiz session store (`Quiz` component, `App.tsx` lines 251–372).
`userAnswers` is a JS object keyed by question index; `Object.keys(...)`
length is the association-list length.  The asynchronous
`callGenerateQuiz` is split into its synchronous part (`start`: set
loading, clear questions/answers/results) and the application of its
result (`resolve`: on success install the questions, on failure or invalid
payload only alert).  Guards reproduce the `disabled` conditions of the
rendered controls; a guarded-out action leaves the state unchanged.
-/

/-- A quiz question as consumed by the `Quiz` component (`types.ts`). -/
structure QuizQuestion where
  question : String
  options : List String
  correctAnswer : String
deriving DecidableEq, Repr

/-- The `Quiz` component's state. -/
structure QuizState where
  questions : List QuizQuestion
  loading : Bool
  userAnswers : List (Nat × String)
  showResults : Bool
deriving DecidableEq, Repr

/-- Initial quiz store state. -/
def quizInit : QuizState := ⟨[], false, [], false⟩

/-- The Start New Quiz button is enabled unless a request is loading. -/
def startQuizEnabled (s : QuizState) : Bool := !s.loading

/-- The Submit Answers button is disabled while
`Object.keys(userAnswers).length < questions.length`. -/
def submitEnabled (s : QuizState) : Bool :=
  !(decide (s.userAnswers.length < s.questions.length))

/-- User and completion events of the quiz store. -/
inductive QuizAction where
  | start
  | resolve (outcome : Option (List QuizQuestion))
  | select (i : Nat) (opt : String)
  | submit

/-- One step of the quiz store.  `select` is possible only for the option
buttons the UI renders: a non-empty unscored quiz, a real question index,
and one of that question's options. -/
def quizStep (s : QuizState) : QuizAction → QuizState
  | .start =>
    if startQuizEnabled s = true then ⟨[], true, [], false⟩ else s
  | .resolve outcome =>
    if s.loading = true then
      { s with loading := false,
               questions := match outcome with
                            | some qs => qs
                            | none => s.questions }
    else s
  | .select i opt =>
    if s.questions ≠ [] ∧ s.showResults = false ∧ i < s.questions.length ∧
        opt ∈ (s.questions.getD i ⟨"", [], ""⟩).options then
      { s with userAnswers := setA s.userAnswers i opt }
    else s
  | .submit =>
    if s.questions ≠ [] ∧ s.showResults = false ∧ submitEnabled s = true then
      { s with showResults := true }
    else s

/-- Reachable quiz-store states. -/
inductive QuizReach : QuizState → Prop where
  | init : QuizReach quizInit
  | step {s : QuizState} (a : QuizAction) : QuizReach s → QuizReach (quizStep s a)

/-- `calculateScore` (`App.tsx` lines 283–291): walk the questions with
their indices, incrementing when the recorded answer strictly equals the
question's `correctAnswer` (an unanswered index never matches). -/
def calculateScore (s : QuizState) : Nat :=
  s.questions.enum.foldl
    (fun acc p => if getA s.userAnswers p.1 = some p.2.correctAnswer then acc + 1 else acc) 0

/-- The specified score: the number of question indices whose recorded
answer equals that question's `correctAnswer`. -/
def specScore (s : QuizState) : Nat :=
  (s.questions.enum.filter
    (fun p => decide (getA s.userAnswers p.1 = some p.2.correctAnswer))).length

/-!
Summaries session store (`Summaries` component, `App.tsx` lines 111–192).
The `useEffect` body is the `visit` event: when the current section's title
has no truthy cached summary and is not flagged loading, it issues exactly
one gateway call (observable: the second component of the step counts calls
emitted).  `resolve` applies a completed call's result — the summary text,
the fallback string, or the configuration message — and clears the flag.
The ghost field `pending` counts outstanding requests per title; `resolve`
is only possible for a title with an outstanding request.
-/

/-- The `Summaries` component's state plus the ghost request counter. -/
structure SummState where
  summaries : List (String × String)
  loading : List (String × Bool)
  idx : Nat
  pending : List (String × Nat)
deriving DecidableEq, Repr

/-- Initial summaries store state. -/
def summInit : SummState := ⟨[], [], 0, []⟩

/-- JS truthiness of a looked-up string (absent or empty is falsy). -/
def truthy (v : Option String) : Bool :=
  match v with
  | some t => t ≠ ""
  | none => false

/-- The loading flag of a title (`loading[title]`, `undefined` is falsy). -/
def loadingOf (s : SummState) (t : String) : Bool := (getA s.loading t).getD false

/-- Ghost: outstanding requests for a title. -/
def pendingOf (s : SummState) (t : String) : Nat := (getA s.pending t).getD 0

/-- Whether the current section's title is flagged loading
(`loading[currentSection?.title]`). -/
def curLoading (secs : List (String × String)) (s : SummState) : Bool :=
  match secs[s.idx]? with
  | some sec => loadingOf s sec.1
  | none => false

/-- Events of the summaries store. -/
inductive SummAction where
  | visit
  | next
  | prev
  | resolve (t : String) (r : String)

/-- One step of the summaries store; the second component is the number of
gateway calls the step emits. -/
def summStep (secs : List (String × String)) (s : SummState) :
    SummAction → SummState × Nat
  | .visit =>
    match secs[s.idx]? with
    | none => (s, 0)
    | some sec =>
      if truthy (getA s.summaries sec.1) = false ∧ loadingOf s sec.1 = false then
        ({ s with loading := setA s.loading sec.1 true,
                  pending := setA s.pending sec.1 (pendingOf s sec.1 + 1) }, 1)
      else (s, 0)
  | .next =>
    if s.idx + 1 < secs.length ∧ curLoading secs s = false then
      ({ s with idx := s.idx + 1 }, 0)
    else (s, 0)
  | .prev =>
    if 0 < s.idx ∧ curLoading secs s = false then
      ({ s with idx := s.idx - 1 }, 0)
    else (s, 0)
  | .resolve t r =>
    if 1 ≤ pendingOf s t then
      ({ s with summaries := setA s.summaries t r,
                loading := setA s.loading t false,
                pending := setA s.pending t (pendingOf s t - 1) }, 0)
    else (s, 0)

/-- Reachable summaries-store states for a fixed section list. -/
inductive SummReach (secs : List (String × String)) : SummState → Prop where
  | init : SummReach secs summInit
  | step {s : SummState} (a : SummAction) :
      SummReach secs s → SummReach secs (summStep secs s a).1

/-!
Theorems.  First, supporting lemmas about the string primitives and the
sectionizer scan, then one theorem per claim (with witnesses and
counterexamples where required).
-/

theorem splitNL_ne_nil (s : Str) : splitNL s ≠ [] := by
  induction s with
  | nil => simp [splitNL]
  | cons c t ih =>
    simp only [splitNL]
    split
    · simp
    · cases h : splitNL t with
      | nil => exact absurd h ih
      | cons a b => simp

theorem splitNL_append_nl (a b : Str) :
    splitNL (a ++ '\n' :: b) = splitNL a ++ splitNL b := by
  induction a with
  | nil => simp [splitNL]
  | cons c t ih =>
    by_cases hc : c = '\n'
    · subst hc
      simp [splitNL, ih]
    · simp only [List.cons_append, splitNL, if_neg hc, List.append_eq]
      rw [ih]
      cases h : splitNL t with
      | nil => exact absurd h (splitNL_ne_nil t)
      | cons x r => simp [h]

theorem splitNL_no_nl (l : Str) (h : '\n' ∉ l) : splitNL l = [l] := by
  induction l with
  | nil => rfl
  | cons c t ih =>
    simp only [List.mem_cons, not_or] at h
    have hc : ¬ c = '\n' := fun hcc => h.1 hcc.symm
    simp only [splitNL, if_neg hc, ih h.2]

theorem joinNL_cons (a : Str) (r : List Str) :
    joinNL (a :: r) = a ++ '\n' :: joinNL r := by
  simp [joinNL]

theorem joinNL_splitNL (s : Str) : joinNL (splitNL s) = s ++ ['\n'] := by
  induction s with
  | nil => rfl
  | cons c t ih =>
    by_cases hc : c = '\n'
    · subst hc
      simp [splitNL, joinNL_cons, ih]
    · simp only [splitNL, if_neg hc]
      cases h : splitNL t with
      | nil => exact absurd h (splitNL_ne_nil t)
      | cons x r =>
        have hx : joinNL (x :: r) = t ++ ['\n'] := h ▸ ih
        rw [joinNL_cons] at hx
        rw [joinNL_cons]
        simp only [List.cons_append, List.append_assoc] at hx ⊢
        rw [hx]

theorem dropWhileLenLe {α : Type} (p : α → Bool) (l : List α) :
    (l.dropWhile p).length ≤ l.length :=
  (List.dropWhile_suffix p).sublist.length_le

theorem dropWhile_self_or_shorter {α : Type} (p : α → Bool) (l : List α) :
    l.dropWhile p = l ∨ (l.dropWhile p).length < l.length := by
  cases l with
  | nil => exact Or.inl rfl
  | cons a t =>
    by_cases h : p a = true
    · right
      rw [List.dropWhile_cons_of_pos h]
      exact Nat.lt_succ_of_le (dropWhileLenLe p t)
    · left
      exact List.dropWhile_cons_of_neg h

theorem dropWhile_eq_self_head {α : Type} (p : α → Bool) (a : α) (t : List α)
    (h : (a :: t).dropWhile p = a :: t) : p a = false := by
  by_cases hp : p a = true
  · rw [List.dropWhile_cons_of_pos hp] at h
    have := dropWhileLenLe p t
    rw [h] at this
    exact absurd this (by simp)
  · simpa using hp

theorem rtrim_length_le (s : Str) : (rtrim s).length ≤ s.length := by
  have := dropWhileLenLe isWS s.reverse
  simpa [rtrim] using this

theorem trim_eq_self_parts (s : Str) (h : trimStr s = s) :
    ltrim s = s ∧ rtrim s = s := by
  have h1 : (ltrim s).length ≤ s.length := dropWhileLenLe isWS s
  have h2 : (rtrim (ltrim s)).length ≤ (ltrim s).length := rtrim_length_le (ltrim s)
  have hlen : (ltrim s).length = s.length := by
    have : s.length ≤ (ltrim s).length := by
      calc s.length = (trimStr s).length := by rw [h]
        _ = (rtrim (ltrim s)).length := rfl
        _ ≤ (ltrim s).length := h2
    omega
  have hl : ltrim s = s := by
    rcases dropWhile_self_or_shorter isWS s with h3 | h3
    · exact h3
    · exact absurd hlen (by unfold ltrim; omega)
  refine ⟨hl, ?_⟩
  calc rtrim s = rtrim (ltrim s) := by rw [hl]
    _ = s := h

theorem rtrim_rev_drop (s : Str) (h : rtrim s = s) :
    s.reverse.dropWhile isWS = s.reverse := by
  have := congrArg List.reverse h
  simpa [rtrim] using this

theorem rtrim_append_of_rtrim (x y : Str) (hy : rtrim y = y) (hyne : y ≠ []) :
    rtrim (x ++ y) = x ++ y := by
  have hrev := rtrim_rev_drop y hy
  cases hc : y.reverse with
  | nil => exact absurd (by simpa using congrArg List.reverse hc) hyne
  | cons c r =>
    rw [hc] at hrev
    have hcf : isWS c = false := dropWhile_eq_self_head isWS c r hrev
    unfold rtrim
    rw [List.reverse_append, hc]
    rw [List.cons_append, List.dropWhile_cons_of_neg (by simp [hcf])]
    rw [← List.cons_append, ← hc, List.reverse_append]
    simp

theorem trim_heading (t : Str) (htrim : trimStr t = t) (hne : t ≠ []) :
    trimStr (h2sp ++ t) = h2sp ++ t := by
  obtain ⟨hl, hr⟩ := trim_eq_self_parts t htrim
  have hlt : ltrim (h2sp ++ t) = h2sp ++ t := by
    show (('#' :: ('#' :: ' ' :: t)) : Str).dropWhile isWS = _
    rw [List.dropWhile_cons_of_neg (by decide)]
    rfl
  show rtrim (ltrim (h2sp ++ t)) = h2sp ++ t
  rw [hlt]
  exact rtrim_append_of_rtrim h2sp t hr hne

theorem rtrim_append_ws (x : Str) (c : Char) (h : isWS c = true) :
    rtrim (x ++ [c]) = rtrim x := by
  unfold rtrim
  rw [List.reverse_append]
  show ((c :: x.reverse).dropWhile isWS).reverse = _
  rw [List.dropWhile_cons_of_pos h]

theorem trim_append_nl (s : Str) : trimStr (s ++ ['\n']) = trimStr s := by
  unfold trimStr ltrim
  rw [List.dropWhile_append]
  by_cases h : (s.dropWhile isWS).isEmpty = true
  · rw [if_pos h]
    have hs : s.dropWhile isWS = [] := by simpa [List.isEmpty_iff] using h
    rw [hs]
    decide
  · rw [if_neg h]
    exact rtrim_append_ws _ _ (by decide)

theorem stripH2_marker (t : Str) : stripH2 (h2sp ++ t) = t := by
  unfold stripH2
  rw [if_pos]
  · show ('#' :: '#' :: ' ' :: t : Str).drop 3 = t
    rfl
  · show h2sp.isPrefixOf ('#' :: '#' :: ' ' :: t) = true
    simp [h2sp, List.isPrefixOf]

theorem h2_starts_heading (t : Str) : h2.isPrefixOf (h2sp ++ t) = true := by
  show h2.isPrefixOf ('#' :: '#' :: ' ' :: t) = true
  simp [h2, List.isPrefixOf]

theorem scanLines_content (ls : List Str) (rest : List Str) (cur : Sec)
    (h : ∀ l ∈ ls, h2.isPrefixOf (trimStr l) = false) :
    scanLines (ls ++ rest) cur = scanLines rest ⟨cur.title, cur.content ++ joinNL ls⟩ := by
  induction ls generalizing cur with
  | nil =>
    simp only [List.nil_append, joinNL, List.map_nil, List.flatten_nil, List.append_nil]
  | cons l ls ih =>
    have hl := h l (List.mem_cons_self _ _)
    have hrest : ∀ x ∈ ls, h2.isPrefixOf (trimStr x) = false :=
      fun x hx => h x (List.mem_cons_of_mem _ hx)
    rw [List.cons_append, scanLines, if_neg (by simp [hl])]
    rw [ih ⟨cur.title, cur.content ++ l ++ ['\n']⟩ hrest]
    rw [joinNL_cons]
    simp [List.append_assoc]

theorem scanLines_secLines :
    ∀ (secs : List (Str × Str)), secs ≠ [] → (∀ p ∈ secs, goodSec p) →
      ∀ (cur : Sec),
        scanLines (secLines secs) cur
          = emitCur cur ++ secs.map (fun p => Sec.mk p.1 (trimStr p.2)) := by
  intro secs
  induction secs with
  | nil => intro h; exact absurd rfl h
  | cons p rest ih =>
    intro _ hgood cur
    obtain ⟨hp1ne, hp1trim, _, hp1abs, hp2ne, hp2lines⟩ :=
      hgood p (List.mem_cons_self _ _)
    have hsl : secLines (p :: rest) = (h2sp ++ p.1) :: (splitNL p.2 ++ secLines rest) := by
      simp [secLines, secBlock]
    have htrim : trimStr (h2sp ++ p.1) = h2sp ++ p.1 := trim_heading p.1 hp1trim hp1ne
    rw [hsl, scanLines, htrim, if_pos (h2_starts_heading p.1), stripH2_marker]
    rw [scanLines_content (splitNL p.2) (secLines rest) ⟨p.1, []⟩ hp2lines]
    rw [joinNL_splitNL]
    cases rest with
    | nil =>
      show emitCur cur ++ scanLines [] ⟨p.1, [] ++ (p.2 ++ ['\n'])⟩ = _
      rw [scanLines]
      rw [List.nil_append, trim_append_nl]
      rw [if_pos hp2ne]
      simp
    | cons q rs =>
      rw [ih (by simp) (fun x hx => hgood x (List.mem_cons_of_mem _ hx))
        ⟨p.1, [] ++ (p.2 ++ ['\n'])⟩]
      have hemit : emitCur ⟨p.1, [] ++ (p.2 ++ ['\n'])⟩ = [Sec.mk p.1 (trimStr p.2)] := by
        unfold emitCur
        rw [List.nil_append]
        simp only [trim_append_nl]
        rw [if_pos ⟨hp2ne, hp1abs⟩]
      rw [hemit]
      simp

theorem splitNL_secsText :
    ∀ (secs : List (Str × Str)), (∀ p ∈ secs, '\n' ∉ p.1) →
      ∀ (a : Str), splitNL (a ++ secsText secs) = splitNL a ++ secLines secs := by
  intro secs
  induction secs with
  | nil =>
    intro _ a
    simp [secsText, secLines]
  | cons p rest ih =>
    intro hnl a
    have h1 : '\n' ∉ p.1 := hnl p (List.mem_cons_self _ _)
    have hrest : ∀ q ∈ rest, '\n' ∉ q.1 := fun q hq => hnl q (List.mem_cons_of_mem _ hq)
    have hst : secsText (p :: rest)
        = '\n' :: ((h2sp ++ p.1) ++ '\n' :: (p.2 ++ secsText rest)) := by
      simp [secsText, List.append_assoc]
    rw [hst, splitNL_append_nl, splitNL_append_nl, ih hrest p.2]
    have hhead : '\n' ∉ h2sp ++ p.1 := by
      intro hmem
      rcases List.mem_append.mp hmem with h | h
      · simp [h2sp] at h
      · exact h1 h
    rw [splitNL_no_nl _ hhead]
    simp [secLines, secBlock]

theorem parseSections_mkDoc (abstract : Str) (secs : List (Str × Str))
    (hne : secs ≠ [])
    (habs : ∀ l ∈ splitNL abstract, h2.isPrefixOf (trimStr l) = false)
    (hgood : ∀ p ∈ secs, goodSec p) :
    ∃ a0, parseSections (mkDoc abstract secs)
        = Sec.mk abstractTitle a0 :: secs.map (fun p => Sec.mk p.1 (trimStr p.2)) := by
  have hnl : ∀ p ∈ secs, '\n' ∉ p.1 := fun p hp => ((hgood p hp).2.2.1)
  have hsplit : splitNL (mkDoc abstract secs)
      = abstractMarker :: (splitNL abstract ++ secLines secs) := by
    unfold mkDoc
    rw [splitNL_append_nl, splitNL_no_nl abstractMarker (by decide),
      splitNL_secsText secs hnl abstract]
    rfl
  have hscan : scanLines (splitNL (mkDoc abstract secs)) ⟨abstractTitle, []⟩
      = secs.map (fun p => Sec.mk p.1 (trimStr p.2)) := by
    rw [hsplit, scanLines]
    rw [show trimStr abstractMarker = abstractMarker from by decide]
    rw [if_pos (show h2.isPrefixOf abstractMarker = true from by decide)]
    rw [show stripH2 abstractMarker = abstractTitle from by decide]
    rw [show emitCur ⟨abstractTitle, []⟩ = [] from by decide]
    rw [List.nil_append]
    rw [scanLines_content (splitNL abstract) (secLines secs) ⟨abstractTitle, []⟩ habs]
    rw [scanLines_secLines secs hne hgood]
    rw [show ∀ c, emitCur ⟨abstractTitle, c⟩ = [] from fun c => by
      unfold emitCur; rw [if_neg]; simp]
    simp
  refine ⟨trimStr (replaceFirst (jsSubstring (mkDoc abstract secs)
      (jsIndexOf (mkDoc abstract secs) abstractMarker)
      (jsIndexOf (mkDoc abstract secs) coreMarker)) abstractMarker []), ?_⟩
  unfold parseSections
  rw [hscan]

/-- Claim C1, as stated, is false on the code: in this document there are 3
second-level headings (`'## Abstract'`, `'## I. The Core Framework'`,
`'## II. Y'`) and the abstract text `'A'` is non-empty, yet `parseSections`
returns 2 sections, not 3 + 1 (nor 2 + 1 if the Abstract heading is not
counted): the scanned section for the `'## Abstract'` heading is always
dropped in favour of the separately extracted abstract, and the section of
the empty-bodied heading `'## II. Y'` is dropped as well. -/
theorem C1_counterexample :
    secondLevelHeadingCount
        ("## Abstract\nA\n## I. The Core Framework\nfoo\n## II. Y".data) = 3
    ∧ (parseSections
        ("## Abstract\nA\n## I. The Core Framework\nfoo\n## II. Y".data)).head?
        = some (Sec.mk "Abstract".data "A".data)
    ∧ (parseSections
        ("## Abstract\nA\n## I. The Core Framework\nfoo\n## II. Y".data)).length = 2 :=
  ⟨by decide, by decide, by decide⟩

/-- Claim C1 (amended): for every document built from non-heading abstract
text followed by N ≥ 1 second-level headings other than `'## Abstract'`,
each with trimmed non-empty content whose lines do not look like headings
(titles trimmed, newline-free), `parseSections` returns N + 1 sections whose
first element is titled `'Abstract'` and whose remaining titles appear in
document order and equal the heading text with the `'## '` marker
stripped.  (Relative to the claim as stated: N must not count the
`'## Abstract'` heading itself, and headings with empty bodies must be
excluded, as the counterexample forces.) -/
theorem C1_amended (abstract : Str) (secs : List (Str × Str))
    (hne : secs ≠ [])
    (habs : ∀ l ∈ splitNL abstract, h2.isPrefixOf (trimStr l) = false)
    (hgood : ∀ p ∈ secs, goodSec p) :
    (parseSections (mkDoc abstract secs)).map Sec.title
        = abstractTitle :: secs.map Prod.fst
      ∧ (parseSections (mkDoc abstract secs)).length = secs.length + 1 := by
  obtain ⟨a0, h⟩ := parseSections_mkDoc abstract secs hne habs hgood
  rw [h]
  constructor
  · simp
  · simp

/-- Witness for `C1_amended` at a concrete two-section document. -/
theorem C1_amended_witness :
    (parseSections (mkDoc ("The abstract.".data)
        [("I. The Core Framework".data, "Body one.".data),
         ("II. More".data, "Body two.".data)])).map Sec.title
        = abstractTitle :: ["I. The Core Framework".data, "II. More".data]
      ∧ (parseSections (mkDoc ("The abstract.".data)
        [("I. The Core Framework".data, "Body one.".data),
         ("II. More".data, "Body two.".data)])).length = 2 + 1 :=
  C1_amended ("The abstract.".data)
    [("I. The Core Framework".data, "Body one.".data),
     ("II. More".data, "Body two.".data)]
    (by decide) (by decide) (by decide)

/-- Claim C2, as stated, is false on the code: for the scenario document
with abstract text `'An abstract.'` and headings `'## I. X'`, `'## II. Y'`,
`parseSections` does return exactly two sections with `'II. Y'` dropped,
but the first section does not carry the abstract text: the hard-coded end
marker `'## I. The Core Framework'` does not occur, `indexOf` yields `-1`,
and the extracted abstract span is empty. -/
theorem C2_counterexample :
    (parseSections ("## Abstract\nAn abstract.\n## I. X\nfoo\n## II. Y".data)).length = 2
    ∧ (parseSections ("## Abstract\nAn abstract.\n## I. X\nfoo\n## II. Y".data)).head?
        ≠ some (Sec.mk "Abstract".data (trimStr "An abstract.".data)) :=
  ⟨by decide, by decide⟩

/-- Claim C2 (amended): for the scenario document with abstract text
`'An abstract.'`, heading `'## I. X'` with content `'foo'` and heading
`'## II. Y'` with no content before end of input, `parseSections` returns
exactly two sections: one titled `'Abstract'` whose content is the empty
string (not the abstract text — the hard-coded abstract end marker is
absent from this document), and one titled `'I. X'` with content `'foo'`;
the empty-bodied section Y yields no emitted section. -/
theorem C2_amended :
    parseSections ("## Abstract\nAn abstract.\n## I. X\nfoo\n## II. Y".data)
      = [Sec.mk "Abstract".data [], Sec.mk "I. X".data "foo".data] := by
  decide

/-- Claim C3: for every pair of input strings (including empty strings) and
every remote behaviour, `generateSummary` and `answerQuestion` never raise:
each returns (`.ok`) a string which is the configuration-error message, the
remote model's text, or the operation's fixed fallback string. -/
theorem C3_never_raise (key : Option String) (remote : String → Except String String)
    (sectionTitle sectionContent reportText question : String) :
    (∃ s, generateSummary key remote sectionTitle sectionContent = .ok s
       ∧ (s = apiKeyMsg ∨ remote (summaryPrompt sectionTitle sectionContent) = .ok s
           ∨ s = summaryFallback))
    ∧ (∃ s, answerQuestion key remote reportText question = .ok s
       ∧ (s = apiKeyMsg ∨ remote (answerPrompt reportText question) = .ok s
           ∨ s = answerFallback)) := by
  constructor
  · by_cases hk : apiConfigured key = true
    · cases hr : remote (summaryPrompt sectionTitle sectionContent) with
      | ok t =>
        exact ⟨t, by simp [generateSummary, checkApiKey, hk, hr], Or.inr (Or.inl rfl)⟩
      | error m =>
        exact ⟨summaryFallback, by simp [generateSummary, checkApiKey, hk, hr],
          Or.inr (Or.inr rfl)⟩
    · have hk' : apiConfigured key = false := by simpa using hk
      exact ⟨apiKeyMsg, by simp [generateSummary, checkApiKey, hk'], Or.inl rfl⟩
  · by_cases hk : apiConfigured key = true
    · cases hr : remote (answerPrompt reportText question) with
      | ok t =>
        exact ⟨t, by simp [answerQuestion, checkApiKey, hk, hr], Or.inr (Or.inl rfl)⟩
      | error m =>
        exact ⟨answerFallback, by simp [answerQuestion, checkApiKey, hk, hr],
          Or.inr (Or.inr rfl)⟩
    · have hk' : apiConfigured key = false := by simpa using hk
      exact ⟨apiKeyMsg, by simp [answerQuestion, checkApiKey, hk'], Or.inl rfl⟩

/-- Claim C4 (amended): `generateQuiz` raises exactly in these failure
cases: (a) the credential is missing, (b) the remote call fails, (c) the
trimmed response does not start with a brace or bracket — in which case the
outcome is independent of the JSON parse function, so no parse is consulted
— and (d) the JSON parse of a well-started trimmed response fails.  (The
claim as stated omits case (d), which the counterexample exhibits.) -/
theorem C4_amended (key : Option String) (remote : String → Except String String)
    (jp : String → Option Json) (report : String) :
    ((∃ e, generateQuiz key remote jp report = .error e) ↔
      (apiConfigured key = false
        ∨ (∃ m, remote (quizPrompt report) = .error m)
        ∨ (∃ t, remote (quizPrompt report) = .ok t
            ∧ goodJsonStart (trimStr t.data) = false)
        ∨ (∃ t, remote (quizPrompt report) = .ok t
            ∧ goodJsonStart (trimStr t.data) = true
            ∧ jp (String.mk (trimStr t.data)) = none)))
    ∧ (∀ (jp2 : String → Option Json) (t : String),
        remote (quizPrompt report) = .ok t →
        goodJsonStart (trimStr t.data) = false →
        generateQuiz key remote jp report = generateQuiz key remote jp2 report) := by
  by_cases hk : apiConfigured key = true
  · cases hr : remote (quizPrompt report) with
    | error m =>
      refine ⟨⟨fun _ => Or.inr (Or.inl ⟨m, rfl⟩), fun _ => ⟨quizFailMsg, ?_⟩⟩, ?_⟩
      · simp [generateQuiz, checkApiKey, hk, hr]
      · intro jp2 t ht _
        cases ht
    | ok t0 =>
      by_cases hs : goodJsonStart (trimStr t0.data) = true
      · cases hp : jp (String.mk (trimStr t0.data)) with
        | none =>
          refine ⟨⟨fun _ => Or.inr (Or.inr (Or.inr ⟨t0, rfl, hs, hp⟩)),
            fun _ => ⟨quizFailMsg, ?_⟩⟩, ?_⟩
          · simp [generateQuiz, checkApiKey, hk, hr, hs, hp]
          · intro jp2 t ht hf
            injection ht with ht
            subst ht
            rw [hs] at hf
            cases hf
        | some j =>
          have hok : generateQuiz key remote jp report = .ok j := by
            simp [generateQuiz, checkApiKey, hk, hr, hs, hp]
          refine ⟨⟨?_, ?_⟩, ?_⟩
          · rintro ⟨e, he⟩
            rw [hok] at he
            cases he
          · rintro (h | ⟨m, hm⟩ | ⟨t, ht, hf⟩ | ⟨t, ht, _, hpn⟩)
            · rw [hk] at h
              cases h
            · cases hm
            · injection ht with ht
              subst ht
              rw [hs] at hf
              cases hf
            · injection ht with ht
              subst ht
              rw [hp] at hpn
              cases hpn
          · intro jp2 t ht hf
            injection ht with ht
            subst ht
            rw [hs] at hf
            cases hf
      · have hs' : goodJsonStart (trimStr t0.data) = false := by
          simpa using hs
        refine ⟨⟨fun _ => Or.inr (Or.inr (Or.inl ⟨t0, rfl, hs'⟩)),
          fun _ => ⟨quizFailMsg, ?_⟩⟩, ?_⟩
        · simp [generateQuiz, checkApiKey, hk, hr, hs']
        · intro jp2 t ht hf
          simp [generateQuiz, checkApiKey, hk, hr, hs']
  · have hk' : apiConfigured key = false := by simpa using hk
    refine ⟨⟨fun _ => Or.inl hk', fun _ => ⟨apiKeyMsg, ?_⟩⟩, ?_⟩
    · simp [generateQuiz, checkApiKey, hk']
    · intro jp2 t ht hf
      simp [generateQuiz, checkApiKey, hk']

/-- Witness for `C4_amended`: at a configured key and a remote answer
`'nope'` (which does not start with a brace or bracket), `generateQuiz`
raises, and its outcome does not depend on the parse function. -/
theorem C4_amended_witness :
    (∃ e, generateQuiz (some "k") (fun _ => .ok "nope") parseJsonText "doc" = .error e)
    ∧ generateQuiz (some "k") (fun _ => .ok "nope") parseJsonText "doc"
        = generateQuiz (some "k") (fun _ => .ok "nope") (fun _ => none) "doc" :=
  ⟨(C4_amended (some "k") (fun _ => .ok "nope") parseJsonText "doc").1.mpr
      (Or.inr (Or.inr (Or.inl ⟨"nope", rfl, by decide⟩))),
    (C4_amended (some "k") (fun _ => .ok "nope") parseJsonText "doc").2
      (fun _ => none) "nope" rfl (by decide)⟩

/-- Claim C4, as stated, is false on the code: with a configured credential,
a successful remote call, and a trimmed response `'\x7b'` that does start
with a brace — so none of the claim's cases (a), (b), (c) applies — the
JSON parse fails on the incomplete object and `generateQuiz` still raises. -/
theorem C4_counterexample :
    apiConfigured (some "k") = true
    ∧ goodJsonStart (trimStr ("\x7b".data)) = true
    ∧ generateQuiz (some "k") (fun _ => .ok "\x7b") parseJsonText "doc"
        = .error quizFailMsg :=
  ⟨by decide, by decide, by rfl⟩

/-- Claim C5, as stated, is false on the code: `generateQuiz` performs no
shape validation, so with a remote payload whose `quiz` array is empty it
returns successfully with 0 questions rather than 5. -/
theorem C5_counterexample :
    generateQuiz (some "k") (fun _ => .ok "\x7b\"quiz\":[]\x7d") parseJsonText "doc"
      = .ok (Json.obj [("quiz", Json.arr [])])
    ∧ (quizField (Json.obj [("quiz", Json.arr [])])).map List.length = some 0 :=
  ⟨by rfl, by rfl⟩

/-- Claim C5 (amended): a successful `generateQuiz` returns exactly the
parsed JSON of the remote response, with no local validation of question
count, option count, or answer membership; hence the invariant "exactly 5
questions, each with 4 options, `correctAnswer` among them" holds of the
result exactly when the remote payload satisfies it. -/
theorem C5_amended (key : Option String) (remote : String → Except String String)
    (jp : String → Option Json) (report : String) (t : String) (j : Json)
    (hkey : apiConfigured key = true)
    (hrem : remote (quizPrompt report) = .ok t)
    (hstart : goodJsonStart (trimStr t.data) = true)
    (hparse : jp (String.mk (trimStr t.data)) = some j) :
    generateQuiz key remote jp report = .ok j
    ∧ (quizOk j ↔ ∃ j2, generateQuiz key remote jp report = .ok j2 ∧ quizOk j2) := by
  have hok : generateQuiz key remote jp report = .ok j := by
    simp [generateQuiz, checkApiKey, hkey, hrem, hstart, hparse]
  refine ⟨hok, ⟨fun h => ⟨j, hok, h⟩, ?_⟩⟩
  rintro ⟨j2, he, hq⟩
  rw [hok] at he
  injection he with he
  rw [he]
  exact hq

/-- Witness for `C5_amended` at the empty-quiz payload. -/
theorem C5_amended_witness :
    generateQuiz (some "k") (fun _ => .ok "\x7b\"quiz\":[]\x7d") parseJsonText "doc"
        = .ok (Json.obj [("quiz", Json.arr [])])
    ∧ (quizOk (Json.obj [("quiz", Json.arr [])]) ↔
        ∃ j2, generateQuiz (some "k") (fun _ => .ok "\x7b\"quiz\":[]\x7d")
            parseJsonText "doc" = .ok j2 ∧ quizOk j2) :=
  C5_amended (some "k") (fun _ => .ok "\x7b\"quiz\":[]\x7d") parseJsonText "doc"
    "\x7b\"quiz\":[]\x7d" (Json.obj [("quiz", Json.arr [])])
    (by decide) rfl (by decide) (by rfl)

theorem getA_cons {K V : Type} [DecidableEq K] (p : K × V) (t : List (K × V)) (k : K) :
    getA (p :: t) k = if p.1 = k then some p.2 else getA t k := by
  by_cases h : p.1 = k
  · simp [getA, List.find?_cons, h]
  · simp [getA, List.find?_cons, h]

theorem getA_isSome_iff {K V : Type} [DecidableEq K] (m : List (K × V)) (k : K) :
    (getA m k).isSome = true ↔ k ∈ m.map Prod.fst := by
  induction m with
  | nil => simp [getA]
  | cons p t ih =>
    rw [getA_cons]
    by_cases h : p.1 = k
    · simp [h]
    · rw [if_neg h, ih]
      simp only [List.map_cons, List.mem_cons]
      constructor
      · intro hm
        exact Or.inr hm
      · intro hm
        rcases hm with h1 | h1
        · exact absurd h1.symm h
        · exact h1

theorem setA_keys {K V : Type} [DecidableEq K] (m : List (K × V)) (k : K) (v : V) :
    (setA m k v).map Prod.fst
      = if k ∈ m.map Prod.fst then m.map Prod.fst else m.map Prod.fst ++ [k] := by
  induction m with
  | nil => simp [setA]
  | cons p t ih =>
    by_cases h : p.1 = k
    · simp [setA, h]
    · have h2 : ¬ k = p.1 := fun hk => h hk.symm
      simp only [setA, if_neg h, List.map_cons, ih, List.mem_cons]
      by_cases hm : k ∈ t.map Prod.fst
      · simp [hm, h2]
      · simp [hm, h2]

theorem setA_keys_nodup {K V : Type} [DecidableEq K] (m : List (K × V)) (k : K) (v : V)
    (h : (m.map Prod.fst).Nodup) : ((setA m k v).map Prod.fst).Nodup := by
  rw [setA_keys]
  by_cases hm : k ∈ m.map Prod.fst
  · simpa [hm] using h
  · rw [if_neg hm]
    exact List.Nodup.append h (List.nodup_singleton k) (by simpa using hm)

theorem setA_length {K V : Type} [DecidableEq K] (m : List (K × V)) (k : K) (v : V) :
    (setA m k v).length
      = if k ∈ m.map Prod.fst then m.length else m.length + 1 := by
  have := congrArg List.length (setA_keys m k v)
  by_cases hm : k ∈ m.map Prod.fst
  · simpa [hm] using this
  · simpa [hm] using this

/-- The quiz-store invariant maintained by every reachable state: answer
keys are distinct and within range, and while loading the store is clear. -/
theorem quizInv_reach (s : QuizState) (h : QuizReach s) :
    (s.userAnswers.map Prod.fst).Nodup
    ∧ (∀ k ∈ s.userAnswers.map Prod.fst, k < s.questions.length)
    ∧ (s.loading = true → s.userAnswers = [] ∧ s.questions = []) := by
  induction h with
  | init => simp [quizInit]
  | step a _ ih =>
    obtain ⟨hnd, hbound, hload⟩ := ih
    rename_i s0 _
    cases a with
    | start =>
      by_cases hl : startQuizEnabled s0 = true
      · simp [quizStep, hl]
      · simp only [quizStep]
        rw [if_neg (by simpa using hl)]
        exact ⟨hnd, hbound, hload⟩
    | resolve outcome =>
      by_cases hl : s0.loading = true
      · obtain ⟨ha, hq⟩ := hload hl
        cases outcome <;> simp [quizStep, hl, ha, hq]
      · simp only [quizStep]
        rw [if_neg (by simpa using hl)]
        exact ⟨hnd, hbound, hload⟩
    | select i opt =>
      by_cases hg : s0.questions ≠ [] ∧ s0.showResults = false ∧
          i < s0.questions.length ∧
          opt ∈ (s0.questions.getD i ⟨"", [], ""⟩).options
      · simp only [quizStep]
        rw [if_pos hg]
        refine ⟨setA_keys_nodup _ _ _ hnd, ?_, ?_⟩
        · intro k hk
          rw [setA_keys] at hk
          by_cases hm : i ∈ s0.userAnswers.map Prod.fst
          · rw [if_pos hm] at hk
            exact hbound k hk
          · rw [if_neg hm] at hk
            rcases List.mem_append.mp hk with h | h
            · exact hbound k h
            · simp at h
              subst h
              exact hg.2.2.1
        · intro hl
          exact absurd (hload hl).2 hg.1
      · simp only [quizStep]
        rw [if_neg hg]
        exact ⟨hnd, hbound, hload⟩
    | submit =>
      by_cases hg : s0.questions ≠ [] ∧ s0.showResults = false ∧ submitEnabled s0 = true
      · simp only [quizStep]
        rw [if_pos hg]
        exact ⟨hnd, hbound, hload⟩
      · simp only [quizStep]
        rw [if_neg hg]
        exact ⟨hnd, hbound, hload⟩

theorem count_foldl {α : Type} (l : List α) (p : α → Prop) [DecidablePred p] :
    ∀ n : Nat, l.foldl (fun acc x => if p x then acc + 1 else acc) n
      = n + (l.filter (fun x => decide (p x))).length := by
  induction l with
  | nil => intro n; simp
  | cons x t ih =>
    intro n
    by_cases h : p x
    · rw [List.foldl_cons, if_pos h, ih]
      have hf : List.filter (fun x => decide (p x)) (x :: t)
          = x :: List.filter (fun x => decide (p x)) t := by
        simp [List.filter_cons, h]
      rw [hf, List.length_cons]
      omega
    · rw [List.foldl_cons, if_neg h, ih]
      have hf : List.filter (fun x => decide (p x)) (x :: t)
          = List.filter (fun x => decide (p x)) t := by
        simp [List.filter_cons, h]
      rw [hf]

theorem calculateScore_eq_specScore (s : QuizState) :
    calculateScore s = specScore s := by
  unfold calculateScore specScore
  rw [count_foldl]
  simp

theorem enabled_iff_all_answered (s : QuizState)
    (hnd : (s.userAnswers.map Prod.fst).Nodup)
    (hbound : ∀ k ∈ s.userAnswers.map Prod.fst, k < s.questions.length) :
    submitEnabled s = true
      ↔ ∀ i < s.questions.length, (getA s.userAnswers i).isSome = true := by
  have hlen : (s.userAnswers.map Prod.fst).length = s.userAnswers.length :=
    List.length_map _ _
  have hcard : (s.userAnswers.map Prod.fst).toFinset.card = s.userAnswers.length := by
    rw [List.toFinset_card_of_nodup hnd, hlen]
  have hsub : (s.userAnswers.map Prod.fst).toFinset ⊆ Finset.range s.questions.length := by
    intro k hk
    rw [List.mem_toFinset] at hk
    exact Finset.mem_range.mpr (hbound k hk)
  have hen : submitEnabled s = true ↔ s.questions.length ≤ s.userAnswers.length := by
    simp [submitEnabled]
  rw [hen]
  constructor
  · intro hle i hi
    have hcardle : (Finset.range s.questions.length).card
        ≤ (s.userAnswers.map Prod.fst).toFinset.card := by
      rw [Finset.card_range, hcard]
      exact hle
    have heq := Finset.eq_of_subset_of_card_le hsub hcardle
    have : i ∈ (s.userAnswers.map Prod.fst).toFinset := by
      rw [heq]
      exact Finset.mem_range.mpr hi
    rw [List.mem_toFinset] at this
    exact (getA_isSome_iff _ _).mpr this
  · intro hall
    have hsub2 : Finset.range s.questions.length
        ⊆ (s.userAnswers.map Prod.fst).toFinset := by
      intro i hi
      rw [List.mem_toFinset]
      exact (getA_isSome_iff _ _).mp (hall i (Finset.mem_range.mp hi))
    have := Finset.card_le_card hsub2
    rw [Finset.card_range, hcard] at this
    exact this

/-- Claim C6: in every reachable quiz-store state, the Submit control is
enabled exactly when every question index has a recorded answer, and the
computed score (`calculateScore`) equals the count of question indices whose
recorded answer string equals that question's `correctAnswer` (`specScore`;
the score is only ever rendered after submission, and the equality holds
there in particular). -/
theorem C6_submit_gate_and_score (s : QuizState) (h : QuizReach s) :
    (submitEnabled s = true
      ↔ ∀ i < s.questions.length, (getA s.userAnswers i).isSome = true)
    ∧ calculateScore s = specScore s := by
  obtain ⟨hnd, hbound, _⟩ := quizInv_reach s h
  exact ⟨enabled_iff_all_answered s hnd hbound, calculateScore_eq_specScore s⟩

/-- Witness for `C6_submit_gate_and_score` on a concrete submitted session
with two questions, one answered correctly. -/
theorem C6_witness :
    (submitEnabled (quizStep (quizStep (quizStep (quizStep (quizStep quizInit
        QuizAction.start)
        (QuizAction.resolve (some [⟨"Q1", ["A", "B", "C", "D"], "A"⟩,
          ⟨"Q2", ["A", "B", "C", "D"], "B"⟩])))
        (QuizAction.select 0 "A")) (QuizAction.select 1 "C")) QuizAction.submit) = true
      ↔ ∀ i < (quizStep (quizStep (quizStep (quizStep (quizStep quizInit
        QuizAction.start)
        (QuizAction.resolve (some [⟨"Q1", ["A", "B", "C", "D"], "A"⟩,
          ⟨"Q2", ["A", "B", "C", "D"], "B"⟩])))
        (QuizAction.select 0 "A")) (QuizAction.select 1 "C")) QuizAction.submit).questions.length,
        (getA (quizStep (quizStep (quizStep (quizStep (quizStep quizInit
        QuizAction.start)
        (QuizAction.resolve (some [⟨"Q1", ["A", "B", "C", "D"], "A"⟩,
          ⟨"Q2", ["A", "B", "C", "D"], "B"⟩])))
        (QuizAction.select 0 "A")) (QuizAction.select 1 "C")) QuizAction.submit).userAnswers i).isSome
          = true)
    ∧ calculateScore (quizStep (quizStep (quizStep (quizStep (quizStep quizInit
        QuizAction.start)
        (QuizAction.resolve (some [⟨"Q1", ["A", "B", "C", "D"], "A"⟩,
          ⟨"Q2", ["A", "B", "C", "D"], "B"⟩])))
        (QuizAction.select 0 "A")) (QuizAction.select 1 "C")) QuizAction.submit)
      = specScore (quizStep (quizStep (quizStep (quizStep (quizStep quizInit
        QuizAction.start)
        (QuizAction.resolve (some [⟨"Q1", ["A", "B", "C", "D"], "A"⟩,
          ⟨"Q2", ["A", "B", "C", "D"], "B"⟩])))
        (QuizAction.select 0 "A")) (QuizAction.select 1 "C")) QuizAction.submit) :=
  C6_submit_gate_and_score _
    (QuizReach.step QuizAction.submit
      (QuizReach.step (QuizAction.select 1 "C")
        (QuizReach.step (QuizAction.select 0 "A")
          (QuizReach.step (QuizAction.resolve (some [⟨"Q1", ["A", "B", "C", "D"], "A"⟩,
              ⟨"Q2", ["A", "B", "C", "D"], "B"⟩]))
            (QuizReach.step QuizAction.start QuizReach.init)))))

/-- Claim C7, as stated, is false on the code: the Start New Quiz control is
rendered with `disabled` bound to the loading flag, so the start-new-quiz
action is not allowed from the Loading state (it is a no-op there), contrary
to the claim that it is allowed from every state including Loading. -/
theorem C7_counterexample :
    (quizStep quizInit QuizAction.start).loading = true
    ∧ startQuizEnabled (quizStep quizInit QuizAction.start) = false :=
  ⟨rfl, rfl⟩

/-- Claim C7 (amended): from every non-Loading quiz-store state (Empty,
InProgress, Submitted) the start-new-quiz action is enabled and resets the
store directly to the fresh Loading state, discarding all prior questions,
recorded answers and the submitted flag; from the Loading state the control
is disabled and the action leaves the state unchanged. -/
theorem C7_amended (s : QuizState) :
    (s.loading = false →
      startQuizEnabled s = true ∧ quizStep s QuizAction.start = ⟨[], true, [], false⟩)
    ∧ (s.loading = true →
      startQuizEnabled s = false ∧ quizStep s QuizAction.start = s) := by
  constructor
  · intro h
    have he : startQuizEnabled s = true := by simp [startQuizEnabled, h]
    refine ⟨he, ?_⟩
    simp only [quizStep]
    rw [if_pos he]
  · intro h
    have he : startQuizEnabled s = false := by simp [startQuizEnabled, h]
    refine ⟨he, ?_⟩
    simp only [quizStep]
    rw [if_neg (by simp [he])]

/-- Witness for `C7_amended` at the initial (Empty) state and at the fresh
Loading state. -/
theorem C7_amended_witness :
    (startQuizEnabled quizInit = true
      ∧ quizStep quizInit QuizAction.start = ⟨[], true, [], false⟩)
    ∧ (startQuizEnabled ⟨[], true, [], false⟩ = false
      ∧ quizStep (⟨[], true, [], false⟩ : QuizState) QuizAction.start
          = ⟨[], true, [], false⟩) :=
  ⟨(C7_amended quizInit).1 rfl, (C7_amended ⟨[], true, [], false⟩).2 rfl⟩

/-- Claim C8: editing the search term forces the view to Report (`'home'`)
with the new term applied, from every state; and every navigation
transition leaves the search term unchanged — in particular it is retained
across navigating away from Report and back. -/
theorem C8_search_term (s : AppState) (t : String) (v w : View) :
    appStep s (AppAction.editSearch t) = ⟨View.home, t⟩
    ∧ (appStep s (AppAction.navigate v)).searchTerm = s.searchTerm
    ∧ (appStep (appStep s (AppAction.navigate v))
        (AppAction.navigate w)).searchTerm = s.searchTerm :=
  ⟨rfl, rfl, rfl⟩

theorem getA_setA_self {K V : Type} [DecidableEq K] (m : List (K × V)) (k : K) (v : V) :
    getA (setA m k v) k = some v := by
  induction m with
  | nil => simp [setA, getA_cons]
  | cons p t ih =>
    by_cases h : p.1 = k
    · simp [setA, h, getA_cons]
    · simp only [setA, if_neg h]
      rw [getA_cons, if_neg h]
      exact ih

theorem getA_setA_ne {K V : Type} [DecidableEq K] (m : List (K × V)) (k k' : K) (v : V)
    (h : k' ≠ k) : getA (setA m k v) k' = getA m k' := by
  induction m with
  | nil =>
    rw [setA, getA_cons, if_neg (show ¬ (k, v).1 = k' from fun hk => h hk.symm)]
  | cons p t ih =>
    by_cases hp : p.1 = k
    · rw [setA, if_pos hp, getA_cons, getA_cons]
      rw [if_neg (show ¬ (k, v).1 = k' from fun hk => h hk.symm)]
      rw [if_neg (show ¬ p.1 = k' from fun hk => h (hp.symm.trans hk).symm)]
    · rw [setA, if_neg hp, getA_cons, getA_cons]
      by_cases hpk : p.1 = k'
      · rw [if_pos hpk, if_pos hpk]
      · rw [if_neg hpk, if_neg hpk]
        exact ih

/-- The summaries-store invariant in every reachable state: for every title,
at most one request is outstanding, and the loading flag holds exactly when
one is. -/
theorem summInv_reach (secs : List (String × String)) (s : SummState)
    (h : SummReach secs s) :
    ∀ t, pendingOf s t ≤ 1 ∧ (loadingOf s t = true ↔ pendingOf s t = 1) := by
  induction h with
  | init =>
    intro t
    simp [summInit, pendingOf, loadingOf, getA]
  | step a _ ih =>
    rename_i s0 _
    intro t
    cases a with
    | visit =>
      cases hc : secs[s0.idx]? with
      | none =>
        simp only [summStep, hc]
        exact ih t
      | some sec =>
        by_cases hg : truthy (getA s0.summaries sec.1) = false
            ∧ loadingOf s0 sec.1 = false
        · simp only [summStep, hc]
          rw [if_pos hg]
          by_cases ht : t = sec.1
          · subst ht
            have hp0 : pendingOf s0 sec.1 = 0 := by
              rcases Nat.lt_or_ge (pendingOf s0 sec.1) 1 with h1 | h1
              · omega
              · have h2 : pendingOf s0 sec.1 = 1 := le_antisymm (ih sec.1).1 h1
                have h3 := (ih sec.1).2.mpr h2
                rw [hg.2] at h3
                cases h3
            constructor
            · show (getA (setA s0.pending sec.1 (pendingOf s0 sec.1 + 1)) sec.1).getD 0 ≤ 1
              rw [getA_setA_self, hp0]
              simp
            · constructor
              · intro _
                show (getA (setA s0.pending sec.1 (pendingOf s0 sec.1 + 1)) sec.1).getD 0 = 1
                rw [getA_setA_self, hp0]
                rfl
              · intro _
                show (getA (setA s0.loading sec.1 true) sec.1).getD false = true
                rw [getA_setA_self]
                rfl
          · have hl : loadingOf { s0 with
                loading := setA s0.loading sec.1 true,
                pending := setA s0.pending sec.1 (pendingOf s0 sec.1 + 1) } t
                = loadingOf s0 t := by
              show (getA (setA s0.loading sec.1 true) t).getD false = _
              rw [getA_setA_ne _ _ _ _ ht]
              rfl
            have hp : pendingOf { s0 with
                loading := setA s0.loading sec.1 true,
                pending := setA s0.pending sec.1 (pendingOf s0 sec.1 + 1) } t
                = pendingOf s0 t := by
              show (getA (setA s0.pending sec.1 (pendingOf s0 sec.1 + 1)) t).getD 0 = _
              rw [getA_setA_ne _ _ _ _ ht]
              rfl
            rw [hl, hp]
            exact ih t
        · simp only [summStep, hc]
          rw [if_neg hg]
          exact ih t
    | next =>
      by_cases hg : s0.idx + 1 < secs.length ∧ curLoading secs s0 = false
      · simp only [summStep]
        rw [if_pos hg]
        exact ih t
      · simp only [summStep]
        rw [if_neg hg]
        exact ih t
    | prev =>
      by_cases hg : 0 < s0.idx ∧ curLoading secs s0 = false
      · simp only [summStep]
        rw [if_pos hg]
        exact ih t
      · simp only [summStep]
        rw [if_neg hg]
        exact ih t
    | resolve t0 r =>
      by_cases hg : 1 ≤ pendingOf s0 t0
      · simp only [summStep]
        rw [if_pos hg]
        by_cases ht : t = t0
        · subst ht
          have h2 : pendingOf s0 t = 1 := le_antisymm (ih t).1 hg
          constructor
          · show (getA (setA s0.pending t (pendingOf s0 t - 1)) t).getD 0 ≤ 1
            rw [getA_setA_self, Option.getD_some]
            omega
          · constructor
            · intro hl
              have : (getA (setA s0.loading t false) t).getD false = true := hl
              rw [getA_setA_self] at this
              cases this
            · intro hp
              have : (getA (setA s0.pending t (pendingOf s0 t - 1)) t).getD 0 = 1 := hp
              rw [getA_setA_self, h2] at this
              cases this
        · have hl : loadingOf { s0 with
              summaries := setA s0.summaries t0 r,
              loading := setA s0.loading t0 false,
              pending := setA s0.pending t0 (pendingOf s0 t0 - 1) } t
              = loadingOf s0 t := by
            show (getA (setA s0.loading t0 false) t).getD false = _
            rw [getA_setA_ne _ _ _ _ ht]
            rfl
          have hp : pendingOf { s0 with
              summaries := setA s0.summaries t0 r,
              loading := setA s0.loading t0 false,
              pending := setA s0.pending t0 (pendingOf s0 t0 - 1) } t
              = pendingOf s0 t := by
            show (getA (setA s0.pending t0 (pendingOf s0 t0 - 1)) t).getD 0 = _
            rw [getA_setA_ne _ _ _ _ ht]
            rfl
          rw [hl, hp]
          exact ih t
      · simp only [summStep]
        rw [if_neg hg]
        exact ih t

/-- Claim C9, as stated, is false on the code in one corner: the store
decides "already loaded" by JS truthiness of the cached text, so a summarize
request that completes with the empty string leaves the title in a state the
effect treats as Unrequested, and re-visiting it issues a second gateway
call even though the title already completed once.  Here the single title
is visited (1 call emitted), resolves with `''`, and a re-visit emits a
second call. -/
theorem C9_counterexample :
    (summStep [("Abstract", "x")] summInit SummAction.visit).2 = 1
    ∧ getA ((summStep [("Abstract", "x")]
        (summStep [("Abstract", "x")] summInit SummAction.visit).1
        (SummAction.resolve "Abstract" "")).1).summaries "Abstract" = some ""
    ∧ (summStep [("Abstract", "x")]
        (summStep [("Abstract", "x")]
          (summStep [("Abstract", "x")] summInit SummAction.visit).1
          (SummAction.resolve "Abstract" "")).1 SummAction.visit).2 = 1 :=
  ⟨rfl, rfl, rfl⟩

/-- Claim C9 (amended): in every reachable summaries-store state, for every
title at most one summarize request is in flight (the loading flag holds
exactly while one is); visiting the current section while its title is
Loading or while its cached summary text is truthy emits no gateway call;
and visiting it in the Unrequested state (no truthy cached text, not
loading) emits exactly one call and flags the title loading.  (Relative to
the claim as stated: "already Loaded" must be read as "cached text
non-empty" — a summary completed with the empty string is treated as
Unrequested again, as the counterexample exhibits.) -/
theorem C9_amended (secs : List (String × String)) (s : SummState)
    (h : SummReach secs s) (sec : String × String)
    (hc : secs[s.idx]? = some sec) :
    (∀ t, pendingOf s t ≤ 1 ∧ (loadingOf s t = true ↔ pendingOf s t = 1))
    ∧ (loadingOf s sec.1 = true → summStep secs s SummAction.visit = (s, 0))
    ∧ (truthy (getA s.summaries sec.1) = true →
        summStep secs s SummAction.visit = (s, 0))
    ∧ (truthy (getA s.summaries sec.1) = false → loadingOf s sec.1 = false →
        (summStep secs s SummAction.visit).2 = 1
        ∧ loadingOf (summStep secs s SummAction.visit).1 sec.1 = true
        ∧ pendingOf (summStep secs s SummAction.visit).1 sec.1 = 1) := by
  refine ⟨summInv_reach secs s h, ?_, ?_, ?_⟩
  · intro hl
    simp only [summStep, hc]
    rw [if_neg]
    rintro ⟨_, hg2⟩
    rw [hl] at hg2
    cases hg2
  · intro htr
    simp only [summStep, hc]
    rw [if_neg]
    rintro ⟨hg1, _⟩
    rw [htr] at hg1
    cases hg1
  · intro htr hl
    simp only [summStep, hc]
    rw [if_pos ⟨htr, hl⟩]
    refine ⟨rfl, ?_, ?_⟩
    · show (getA (setA s.loading sec.1 true) sec.1).getD false = true
      rw [getA_setA_self]
      rfl
    · show (getA (setA s.pending sec.1 (pendingOf s sec.1 + 1)) sec.1).getD 0 = 1
      rw [getA_setA_self]
      have hp0 : pendingOf s sec.1 = 0 := by
        obtain ⟨hle, hiff⟩ := summInv_reach secs s h sec.1
        rcases Nat.lt_or_ge (pendingOf s sec.1) 1 with h1 | h1
        · omega
        · have h2 : pendingOf s sec.1 = 1 := le_antisymm hle h1
          have h3 := hiff.mpr h2
          rw [hl] at h3
          cases h3
      rw [hp0]
      rfl

/-- Witness for `C9_amended` at the initial state of a one-section store. -/
theorem C9_amended_witness :
    (∀ t, pendingOf summInit t ≤ 1
      ∧ (loadingOf summInit t = true ↔ pendingOf summInit t = 1))
    ∧ (loadingOf summInit "Abstract" = true →
        summStep [("Abstract", "x")] summInit SummAction.visit = (summInit, 0))
    ∧ (truthy (getA summInit.summaries "Abstract") = true →
        summStep [("Abstract", "x")] summInit SummAction.visit = (summInit, 0))
    ∧ (truthy (getA summInit.summaries "Abstract") = false →
        loadingOf summInit "Abstract" = false →
        (summStep [("Abstract", "x")] summInit SummAction.visit).2 = 1
        ∧ loadingOf (summStep [("Abstract", "x")] summInit SummAction.visit).1
            "Abstract" = true
        ∧ pendingOf (summStep [("Abstract", "x")] summInit SummAction.visit).1
            "Abstract" = 1) :=
  C9_amended [("Abstract", "x")] summInit SummReach.init ("Abstract", "x") rfl

/-- Claim C10, as stated, is false on the code: a failed summarize request
stores the fallback string into the summaries cache exactly like a success,
so re-navigating to the section finds a truthy cached text and does not
re-trigger a gateway call.  Here the first visit emits the one and only
call, the request resolves with the fallback string, the user navigates
away and back, and the re-visit emits no call. -/
theorem C10_counterexample :
    (summStep [("Abstract", "x"), ("B", "y")] summInit SummAction.visit).2 = 1
    ∧ getA ((summStep [("Abstract", "x"), ("B", "y")]
        (summStep [("Abstract", "x"), ("B", "y")] summInit SummAction.visit).1
        (SummAction.resolve "Abstract" summaryFallback)).1).summaries "Abstract"
        = some summaryFallback
    ∧ (summStep [("Abstract", "x"), ("B", "y")]
        (summStep [("Abstract", "x"), ("B", "y")]
          (summStep [("Abstract", "x"), ("B", "y")]
            (summStep [("Abstract", "x"), ("B", "y")]
              (summStep [("Abstract", "x"), ("B", "y")] summInit SummAction.visit).1
              (SummAction.resolve "Abstract" summaryFallback)).1
            SummAction.next).1
          SummAction.prev).1 SummAction.visit).2 = 0 :=
  ⟨rfl, rfl, rfl⟩

/-- Claim C10 (amended): after a summarize request for a section title
fails, the fallback string is cached as that title's summary, and
re-navigating to the section does not re-trigger a gateway call: within the
session the failure is cached as a terminal result (the visit step is a
no-op emitting zero calls). -/
theorem C10_amended (secs : List (String × String)) (s : SummState)
    (sec : String × String) (hc : secs[s.idx]? = some sec)
    (hcache : getA s.summaries sec.1 = some summaryFallback) :
    summStep secs s SummAction.visit = (s, 0) := by
  simp only [summStep, hc]
  rw [if_neg]
  rintro ⟨hg1, _⟩
  rw [hcache] at hg1
  exact absurd hg1 (by decide)

/-- Witness for `C10_amended` on the concrete failed-then-revisited trace. -/
theorem C10_amended_witness :
    summStep [("Abstract", "x"), ("B", "y")]
      ((summStep [("Abstract", "x"), ("B", "y")]
        (summStep [("Abstract", "x"), ("B", "y")] summInit SummAction.visit).1
        (SummAction.resolve "Abstract" summaryFallback)).1) SummAction.visit
      = ((summStep [("Abstract", "x"), ("B", "y")]
        (summStep [("Abstract", "x"), ("B", "y")] summInit SummAction.visit).1
        (SummAction.resolve "Abstract" summaryFallback)).1, 0) :=
  C10_amended [("Abstract", "x"), ("B", "y")] _ ("Abstract", "x") rfl rfl
